import Mathlib

/-
Shallow embedding of `src/readers/processors.py` (streaming frame
processors: online mean/variance `OnlineStats`, pixel sampling
`PixelCatcher`, box sampling `BoxCatcher`, and the throughput monitoring of
`ProcessorBase`).

Numbers: the Python code computes with numpy float64.  We embed values in
`ℚ` and represent a numpy scalar as `Option ℚ`: `some q` is a finite value,
`none` is a non-finite result (NaN or ±Inf).  Non-finite values propagate
through numpy arithmetic, which `none`-propagation models; the only
non-finite values arising in this development come from `0.0/0.0` and from
`np.mean`/`np.var` of an empty array, both of which numpy defines as NaN.
-/

namespace Processors

/-- Addition of numpy scalars: finite values add, non-finite propagates. -/
def oadd : Option ℚ → Option ℚ → Option ℚ
  | some a, some b => some (a + b)
  | _, _ => none

/-- Subtraction of numpy scalars. -/
def osub : Option ℚ → Option ℚ → Option ℚ
  | some a, some b => some (a - b)
  | _, _ => none

/-- Multiplication of numpy scalars (note `0 * NaN = NaN` in numpy, matching
`none` propagation). -/
def omul : Option ℚ → Option ℚ → Option ℚ
  | some a, some b => some (a * b)
  | _, _ => none

/-- Division of numpy scalars: division by zero produces a non-finite value
(NaN for `0/0`, ±Inf otherwise), modelled as `none`. -/
def odiv : Option ℚ → Option ℚ → Option ℚ
  | some a, some b => if b = 0 then none else some (a / b)
  | _, _ => none

/-- Squaring (`** 2`) of a numpy scalar. -/
def osq (o : Option ℚ) : Option ℚ := o.map (· ^ 2)

/-- Model of `np.mean(data, axis=0)` for a batch of scalar frames: the mean
of an empty array is NaN (`none`). -/
def npMean : List ℚ → Option ℚ
  | [] => none
  | x :: xs => some ((x :: xs).sum / (x :: xs).length)

/-- Model of `np.var(data, axis=0)` (numpy default `ddof=0`, i.e. the
population variance, denominator `len data`) for a batch of scalar frames:
the variance of an empty array is NaN (`none`). -/
def npVar : List ℚ → Option ℚ
  | [] => none
  | x :: xs =>
    some (((x :: xs).map (fun y => (y - (x :: xs).sum / (x :: xs).length) ^ 2)).sum
      / (x :: xs).length)

/-- State of an `OnlineStats` object for a scalar per-frame tensor: the
fields `mean`, `var` and `count` set in `OnlineStats.__init__`. -/
structure OSState where
  mean : Option ℚ
  var : Option ℚ
  count : ℕ
deriving DecidableEq

/-- `OnlineStats.__init__`: everything starts at zero. -/
def osInit : OSState := ⟨some 0, some 0, 0⟩

/-- The combined sum of squares `M2` of `OnlineStats.__process__`
(processors.py lines 133-135), mirroring

    m1 = self.var * (self.count - 1)
    m2 = var * (count - 1)
    M2 = m1 + m2 + (self.mean - mean) ** 2 * count * self.count / (count + self.count)

with `count = data.shape[0]`, `mean = np.mean(data, axis=0)` and
`var = np.var(data, axis=0)`. -/
def osM2 (s : OSState) (data : List ℚ) : Option ℚ :=
  oadd (oadd (omul s.var (some ((s.count : ℚ) - 1)))
             (omul (npVar data) (some ((data.length : ℚ) - 1))))
    (odiv (omul (omul (osq (osub s.mean (npMean data))) (some (data.length : ℚ)))
            (some (s.count : ℚ)))
      (some ((data.length : ℚ) + (s.count : ℚ))))

/-- Value-level model of `OnlineStats.__process__` (processors.py lines
127-139) for a scalar per-frame shape with a single leading (frame)
dimension, so that `count = data.shape[0]` is the length of `data`.
Statistics on tensor shapes are elementwise, so this scalar model gives the
per-element behaviour.  The trailing-shape test of line 124 (which raises
before any state is touched) and the behaviour of the frame count at
general leading shapes are modelled separately at the shape level by
`osShapeCheck` / `osProcessShape` below.  Mirrors the source:

    self.mean = (count * mean + self.count * self.mean) / (count + self.count)
    self.count += count
    self.var = M2 / (self.count - 1)
-/
def osUpdate (s : OSState) (data : List ℚ) : OSState where
  mean := odiv (oadd (omul (some (data.length : ℚ)) (npMean data))
                 (omul (some (s.count : ℚ)) s.mean))
      (some ((data.length : ℚ) + (s.count : ℚ)))
  var := odiv (osM2 s data) (some (((s.count + data.length : ℕ) : ℚ) - 1))
  count := s.count + data.length

/-- Projection of `osUpdate` at `mean`, for stepwise evaluation. -/
theorem osUpdate_mean (s : OSState) (data : List ℚ) :
    (osUpdate s data).mean =
      odiv (oadd (omul (some (data.length : ℚ)) (npMean data))
        (omul (some (s.count : ℚ)) s.mean))
        (some ((data.length : ℚ) + (s.count : ℚ))) := rfl

/-- Projection of `osUpdate` at `var`. -/
theorem osUpdate_var (s : OSState) (data : List ℚ) :
    (osUpdate s data).var =
      odiv (osM2 s data) (some (((s.count + data.length : ℕ) : ℚ) - 1)) := rfl

/-- Projection of `osUpdate` at `count`. -/
theorem osUpdate_count (s : OSState) (data : List ℚ) :
    (osUpdate s data).count = s.count + data.length := rfl

/-- Feeding a list of batches to `OnlineStats` in order. -/
def osRun (s : OSState) (batches : List (List ℚ)) : OSState :=
  batches.foldl osUpdate s

/-- Population variance of a dataset (denominator `count`), the quantity the
specification says `var` should hold; numpy's `np.var` with `ddof=0`
computes exactly this, so it coincides with `npVar`. -/
def popVar (xs : List ℚ) : Option ℚ := npVar xs

/-- Shape-level model of the trailing-shape test on line 124:
`data.shape[-len(self.shape):] != self.shape`.  Python's `t[-k:]` for
`k ≥ 1` is the last `min k (len t)` entries of `t`; for `k = 0` it is the
whole tuple `t[0:]`. -/
def osShapeCheck (shape dataShape : List ℕ) : Bool :=
  if shape.length = 0 then dataShape == shape
  else dataShape.drop (dataShape.length - shape.length) == shape

/-- Shape-level model of `OnlineStats.__process__`'s effect on `count`:
`none` models the `ValueError` raised on a failed shape test (raised before
any state is mutated), otherwise the updated `count`.  Line 127's
`data.reshape((-1,) + self.shape)` discards its result (numpy `reshape` is
not in place), so line 129's `count = data.shape[0]` reads the FIRST of all
dimensions of the incoming array, not the product of its leading
dimensions. -/
def osProcessShape (shape : List ℕ) (count : ℕ) (dataShape : List ℕ) : Option ℕ :=
  if osShapeCheck shape dataShape then some (count + dataShape.headD 0) else none

/-- Claim C1 (refuted, code bug): the claim says the stored variance is the
population variance of all frames seen, and that a first single-frame update
yields variance 0 with no division by zero.  In the code, `np.var` returns
the population variance of each batch but the merge formula reconstructs
sums of squares with the sample-variance factor `count - 1` and divides by
`self.count - 1`, so: after feeding `[0,2]` then `[0,2]` the stored variance
is `2/3`, whereas the population variance of the four frames `0,2,0,2` is
`1`; and a first update with the single frame `5` computes `0.0/0.0 = NaN`
(modelled `none`) for the variance, not `0`. -/
theorem onlineStats_variance_not_population :
    (osUpdate (osUpdate osInit [0, 2]) [0, 2]).var = some (2/3) ∧
    popVar [0, 2, 0, 2] = some 1 ∧
    (osUpdate osInit [5]).var = none ∧
    (osUpdate osInit [5]).count = 1 := by
  refine ⟨?_, ?_, ?_, ?_⟩ <;>
    norm_num [osUpdate_mean, osUpdate_var, osUpdate_count, osM2, osInit, popVar,
      npMean, npVar, oadd, osub, omul, odiv, osq]

/-- Claim C2 (refuted, code bug): the claim says the final
`(mean, variance, count)` is independent of how the data is chunked into
batches and equals the statistics of the concatenated dataset.  Feeding the
dataset `0,2,0,2` as one batch stores variance `1`, feeding it as two
batches `[0,2]`, `[0,2]` stores variance `2/3`, so chunking changes the
result (the count agrees, and the one-batch variance here happens to equal
the population variance `1`, but the merged one does not). -/
theorem onlineStats_chunking_changes_variance :
    (osRun osInit [[0, 2], [0, 2]]).var = some (2/3) ∧
    (osRun osInit [[0, 2, 0, 2]]).var = some 1 ∧
    (osRun osInit [[0, 2], [0, 2]]).var ≠ (osRun osInit [[0, 2, 0, 2]]).var ∧
    (osRun osInit [[0, 2], [0, 2]]).count = (osRun osInit [[0, 2, 0, 2]]).count := by
  have h1 : (osRun osInit [[0, 2], [0, 2]]).var = some (2/3) := by
    norm_num [osRun, osUpdate_mean, osUpdate_var, osUpdate_count, osM2, osInit,
      npMean, npVar, oadd, osub, omul, odiv, osq]
  have h2 : (osRun osInit [[0, 2, 0, 2]]).var = some 1 := by
    norm_num [osRun, osUpdate_mean, osUpdate_var, osUpdate_count, osM2, osInit,
      npMean, npVar, oadd, osub, omul, odiv, osq]
  refine ⟨h1, h2, ?_, ?_⟩
  · rw [h1, h2]
    intro h
    have := Option.some.inj h
    norm_num at this
  · norm_num [osRun, osUpdate_count, osInit]

/-- Claim C3 (refuted, code bug): the claim says the stored count increases
by the product of the leading dimensions (and by 1 for a single frame with
no leading dimension).  Because line 127's `data.reshape((-1,) + self.shape)`
discards its result, `count = data.shape[0]` reads the first dimension of
the un-flattened array: for a statistics object of shape `(4,)` fed data of
shape `(2, 3, 4)` the count increases by `2`, not by the leading product
`6`; fed a single frame of shape `(4,)` it increases by `4`, not `1`. -/
theorem onlineStats_count_ignores_leading_dims :
    osProcessShape [4] 0 [2, 3, 4] = some 2 ∧
    ([2, 3] : List ℕ).prod = 6 ∧
    osProcessShape [4] 0 [4] = some 4 := by decide

/-- Claim C7 (refuted for `OnlineStats`, code bug): the claim says a batch
with `N == 0` frames leaves mean, variance and counts unchanged.  From the
healthy state reached by feeding `[1,3]` (mean `2`, variance `1`, count
`2`), an empty batch leaves `count` at `2` but sets both `mean` and `var`
to NaN (modelled `none`): `np.mean`/`np.var` of an empty array are NaN and
propagate through the merge formulas. -/
theorem emptyBatch_corrupts_onlineStats :
    (osUpdate (osUpdate osInit [1, 3]) []).mean = none ∧
    (osUpdate (osUpdate osInit [1, 3]) []).var = none ∧
    (osUpdate (osUpdate osInit [1, 3]) []).count = 2 ∧
    (osUpdate osInit [1, 3]).mean = some 2 ∧
    (osUpdate osInit [1, 3]).var = some 1 := by
  refine ⟨?_, ?_, ?_, ?_, ?_⟩ <;>
    norm_num [osUpdate_mean, osUpdate_var, osUpdate_count, osM2, osInit,
      npMean, npVar, oadd, osub, omul, odiv, osq]

/-- State of a `ProcessorBase` object: the fields set in
`ProcessorBase.__init__` (processors.py lines 23-36).  `avg_fps` is omitted:
line 74 assigns a local variable of that name, so the attribute set in
`__init__` is never updated and no claim mentions it.  Times are wall-clock
values in seconds. -/
structure PBState where
  monitor : Bool
  qlen : ℕ
  monitor_freq : ℚ
  total_frames : ℕ
  start : ℚ
  runtime : ℚ
  frames_since_last_call : ℕ
  last_print : ℚ
  deltas : List (ℚ × ℕ)
deriving DecidableEq

/-- `ProcessorBase.__init__(monitor, qlen=10)` at wall-clock time `t0`:
`monitor_freq = 0.5`, counters zero, `start = last_print = t0`, empty
deque. -/
def pbInit (monitor : Bool) (t0 : ℚ) : PBState :=
  ⟨monitor, 10, 1/2, 0, t0, 0, 0, t0, []⟩

/-- Frame count of a batch as computed on lines 57-60 of `__call__`:
`1` for a 3-d array, `np.prod(frames.shape[:-3])` for more dimensions.
For fewer than 3 dimensions neither branch assigns `n_frames` and line 62
raises `UnboundLocalError`, modelled `none`. -/
def nFrames (dims : List ℕ) : Option ℕ :=
  if dims.length = 3 then some 1
  else if 3 < dims.length then some ((dims.take (dims.length - 3)).prod)
  else none

/-- The monitoring part of `ProcessorBase.__call__` (lines 54-79), given the
shape of the incoming batch and the wall-clock time `now` of the call.  The
kind-specific `__process__` update is modelled separately per processor.
When `monitor` is false the body is skipped entirely and no field changes.
Otherwise the counters accumulate, `runtime = now - start`, and when
`delta = now - last_print` exceeds `monitor_freq` the pair
`(delta, frames_since_last_call)` is pushed onto the bounded deque (capacity
`qlen`, oldest entries dropped), the pending counter resets and
`last_print` advances; the printed smoothed-fps line is a side effect with
no state. -/
def pbCall (s : PBState) (dims : List ℕ) (now : ℚ) : Option PBState :=
  if s.monitor = false then some s
  else
    match nFrames dims with
    | none => none
    | some n =>
      if s.monitor_freq < now - s.last_print then
        some { s with total_frames := s.total_frames + n,
                      runtime := now - s.start,
                      deltas := ((now - s.last_print, s.frames_since_last_call + n) ::
                        s.deltas).take s.qlen,
                      last_print := now,
                      frames_since_last_call := 0 }
      else
        some { s with total_frames := s.total_frames + n,
                      runtime := now - s.start,
                      frames_since_last_call := s.frames_since_last_call + n }

/-- A sequence of calls, each with a batch shape and a call time; a `none`
from any call (an exception) aborts the rest. -/
def pbRun (s : PBState) : List (List ℕ × ℚ) → Option PBState
  | [] => some s
  | e :: es =>
    match pbCall s e.1 e.2 with
    | none => none
    | some s1 => pbRun s1 es

/-- `ProcessorBase.get_fps` (line 38): `self.total_frames / self.runtime`.
Python division of an int by the float `0.0` raises `ZeroDivisionError`,
modelled `none`. -/
def pbGetFps (s : PBState) : Option ℚ :=
  if s.runtime = 0 then none else some ((s.total_frames : ℚ) / s.runtime)

/-- A call with monitoring disabled changes nothing at all. -/
theorem pbCall_monitor_false (s : PBState) (dims : List ℕ) (now : ℚ)
    (h : s.monitor = false) : pbCall s dims now = some s := by
  simp [pbCall, h]

/-- Claim C9 (confirmed): `get_fps()` returns `total_frames / runtime`, the
lifetime average frame rate, and fails with a division-by-zero error
(`ZeroDivisionError`, modelled `none`) whenever `runtime == 0`. -/
theorem getFps_lifetime_average (s : PBState) :
    (s.runtime = 0 → pbGetFps s = none) ∧
    (s.runtime ≠ 0 → pbGetFps s = some ((s.total_frames : ℚ) / s.runtime)) := by
  constructor <;> intro h <;> simp [pbGetFps, h]

/-- Witness for C9: a fresh processor (runtime 0) fails, and a state with
100 frames over 2 seconds reports 50 fps. -/
theorem getFps_lifetime_average_witness :
    pbGetFps ⟨false, 10, 1/2, 0, 0, 0, 0, 0, []⟩ = none ∧
    pbGetFps ⟨true, 10, 1/2, 100, 0, 2, 0, 0, []⟩ = some 50 := by
  constructor
  · exact (getFps_lifetime_average _).1 rfl
  · have h := (getFps_lifetime_average ⟨true, 10, 1/2, 100, 0, 2, 0, 0, []⟩).2 (by norm_num)
    rw [h]
    norm_num

/-- Claim C10 (confirmed): with `monitor=False` (the default), any sequence
of calls leaves the base state exactly as constructed — `total_frames`,
`runtime`, `frames_since_last_call` and the deque never change — and
`get_fps()` fails with a division-by-zero error no matter how many frames
were processed, since `runtime` stays `0`. -/
theorem monitorOff_state_frozen (t0 : ℚ) (events : List (List ℕ × ℚ)) :
    pbRun (pbInit false t0) events = some (pbInit false t0) ∧
    pbGetFps (pbInit false t0) = none := by
  constructor
  · induction events with
    | nil => rfl
    | cons e es ih =>
      rw [pbRun, pbCall_monitor_false _ _ _ rfl]
      exact ih
  · simp [pbGetFps, pbInit]

/-- Witness for C10 at a concrete call sequence. -/
theorem monitorOff_state_frozen_witness :
    pbRun (pbInit false 0) [([4, 2, 2, 3], 5), ([2, 2, 3], 7)] = some (pbInit false 0) ∧
    pbGetFps (pbInit false 0) = none :=
  monitorOff_state_frozen 0 [([4, 2, 2, 3], 5), ([2, 2, 3], 7)]

/-- A frame: rows × columns × channel values, the trailing
`(height, width, n_colors)` geometry of the file's docstring. -/
abbrev Frame := List (List (List ℚ))

/-- Python integer indexing `l[i]`: a negative index wraps by the length
once; an index out of range after that raises `IndexError` (`none`). -/
def pyIdx (l : List α) (i : ℤ) : Option α :=
  if 0 ≤ i then l.get? i.toNat
  else if 0 ≤ i + l.length then l.get? (i + l.length).toNat
  else none

/-- The channel vector of a frame at `(row, col)`, Python index semantics:
`frames[:, loc[0], loc[1], ...]` for one frame. -/
def pixelAt (fr : Frame) (loc : ℤ × ℤ) : Option (List ℚ) :=
  (pyIdx fr loc.1).bind fun row => pyIdx row loc.2

/-- Mapping a fallible function over a list: any failure (a raised
exception) fails the whole traversal. -/
def mapOpt (f : α → Option β) : List α → Option (List β)
  | [] => some []
  | x :: xs =>
    match f x, mapOpt f xs with
    | some y, some ys => some (y :: ys)
    | _, _ => none

/-- Model of `PixelCatcher.__process__` (lines 168-171) on a batch with one
leading frame dimension: `vals = [frames[:,loc[0],loc[1],None,:] for loc in
self.pixels]` takes, for every pixel, the `(N, 1, C)` slice of channel
vectors, and `np.concatenate(vals, axis=1)` packs them into an `(N, P, C)`
entry whose element at `[f][p]` is the channel vector of frame `f` at
`pixels[p]`.  A coordinate out of range raises `IndexError` (`none`),
before `self.values` is touched. -/
def pcProcess (pixels : List (ℤ × ℤ)) (b : List Frame) :
    Option (List (List (List ℚ))) :=
  mapOpt (fun fr => mapOpt (fun loc => pixelAt fr loc) pixels) b

/-- Feeding a stream of batches to a `PixelCatcher`: each successful call
appends one entry to `self.values` (line 171); an exception aborts the
stream with the log as it was before the failing call. -/
def pcRun (pixels : List (ℤ × ℤ)) (vals : List (List (List (List ℚ)))) :
    List (List Frame) → Option (List (List (List (List ℚ))))
  | [] => some vals
  | b :: bs =>
    match pcProcess pixels b with
    | none => none
    | some e => pcRun pixels (vals ++ [e]) bs

/-- Fuel-driven worker for `chunk` (structural recursion on the fuel so
that the kernel can evaluate it; the fuel is always at least the list
length). -/
def chunkGo (n : ℕ) : ℕ → List α → List (List α)
  | _, [] => []
  | 0, _ :: _ => []
  | fuel + 1, x :: xs =>
    if n = 0 then []
    else (x :: xs).take n :: chunkGo n fuel ((x :: xs).drop n)

/-- Row-major regrouping of a flat list into rows of `n`, the way numpy
`reshape` fills a new trailing axis. -/
def chunk (n : ℕ) (xs : List α) : List (List α) := chunkGo n xs.length xs

/-- `chunkGo` ignores any fuel beyond the list length. -/
theorem chunkGo_fuel (n : ℕ) :
    ∀ (f : ℕ) (xs : List α), xs.length ≤ f →
      chunkGo n f xs = chunkGo n xs.length xs
  | _, [], _ => by cases ‹ℕ› <;> rfl
  | 0, x :: xs, h => by simp at h
  | f + 1, x :: xs, h => by
    rw [chunkGo, List.length_cons, chunkGo]
    rcases Nat.eq_zero_or_pos n with rfl | hn
    · rfl
    · rw [if_neg (by omega), if_neg (by omega)]
      have hd : ((x :: xs).drop n).length ≤ f := by
        simp only [List.length_drop, List.length_cons]
        simp only [List.length_cons] at h
        omega
      have hd' : ((x :: xs).drop n).length ≤ xs.length := by
        simp only [List.length_drop, List.length_cons]
        omega
      rw [chunkGo_fuel n f ((x :: xs).drop n) hd,
        chunkGo_fuel n xs.length ((x :: xs).drop n) hd']

/-- Unfolding `chunk` on a non-empty list with a positive row length. -/
theorem chunk_cons (n : ℕ) (hn : n ≠ 0) (x : α) (xs : List α) :
    chunk n (x :: xs) = (x :: xs).take n :: chunk n ((x :: xs).drop n) := by
  rw [chunk, List.length_cons, chunkGo, if_neg hn, chunk,
    chunkGo_fuel n xs.length ((x :: xs).drop n)
      (by simp only [List.length_drop, List.length_cons]; omega)]

/-- All member lists have the same length (numpy can pack them into one
rectangular axis). -/
def lensEq (xs : List (List α)) : Bool :=
  xs.all fun y => y.length == (xs.headD []).length

/-- Model of `PixelCatcher.extract` (lines 173-178):
`np.concatenate(self.values, axis=0)` followed by
`reshape((-1, len(self.pixels), 3))`.  Concatenating an empty list of
arrays raises `ValueError` (`none`); concatenation requires the entries to
agree on the trailing axes (rectangular pixel counts and channel counts);
the reshape flattens everything and regroups it into rows of 3 (the
HARD-CODED channel count) and then groups of `len(self.pixels)`, raising
`ValueError` unless `3 * len(self.pixels)` divides the element count. -/
def pcExtract (numPixels : ℕ) (values : List (List (List (List ℚ)))) :
    Option (List (List (List ℚ))) :=
  if values = [] then none
  else if lensEq values.flatten && lensEq values.flatten.flatten then
    if numPixels ≠ 0 ∧ (3 * numPixels) ∣ values.flatten.flatten.flatten.length then
      some (chunk numPixels (chunk 3 values.flatten.flatten.flatten))
    else none
  else none

/-- The capture the specification describes: for one frame, the channel
vector at each configured pixel coordinate, in pixel order. -/
def pixelCapture (pixels : List (ℤ × ℤ)) (fr : Frame) : List (List ℚ) :=
  pixels.map fun loc => (pixelAt fr loc).getD []

/-- If `f` succeeds on every member, `mapOpt` is the plain map. -/
theorem mapOpt_eq_some (f : α → Option β) (g : α → β) :
    ∀ l : List α, (∀ x ∈ l, f x = some (g x)) → mapOpt f l = some (l.map g)
  | [], _ => rfl
  | x :: xs, h => by
    rw [List.map_cons, mapOpt, h x (List.mem_cons_self x xs),
      mapOpt_eq_some f g xs fun y hy => h y (List.mem_cons_of_mem x hy)]

/-- If `f` fails on some member, `mapOpt` fails. -/
theorem mapOpt_eq_none (f : α → Option β) :
    ∀ l : List α, (∃ x ∈ l, f x = none) → mapOpt f l = none
  | x :: xs, h => by
    obtain ⟨y, hy, hfy⟩ := h
    rcases List.mem_cons.mp hy with rfl | hy'
    · rw [mapOpt, hfy]
    · rw [mapOpt, mapOpt_eq_none f xs ⟨y, hy', hfy⟩]
      cases f x <;> rfl

/-- `chunk n` undoes `flatten` on a list of rows that all have length
`n > 0`. -/
theorem chunk_flatten (n : ℕ) (hn : 0 < n) :
    ∀ xss : List (List α), (∀ xs ∈ xss, xs.length = n) →
      chunk n xss.flatten = xss
  | [], _ => by simp [chunk, chunkGo]
  | a :: as, h => by
    have ha : a.length = n := h a (List.mem_cons_self a as)
    rcases a with - | ⟨y, ys⟩
    · simp at ha
      omega
    · rw [List.flatten_cons, List.cons_append, chunk_cons n (by omega)]
      rw [← List.cons_append, List.take_left' ha, List.drop_left' ha,
        chunk_flatten n hn as fun xs hxs => h xs (List.mem_cons_of_mem _ hxs)]

/-- `lensEq` holds when every member has the same stated length. -/
theorem lensEq_of_forall (xs : List (List α)) (n : ℕ)
    (h : ∀ x ∈ xs, x.length = n) : lensEq xs = true := by
  rcases xs with - | ⟨a, as⟩
  · rfl
  · have ha : a.length = n := h a (List.mem_cons_self a as)
    simp only [lensEq, List.all_eq_true, beq_iff_eq, List.headD_cons]
    intro y hy
    rw [h y hy, ha]

/-- Length of a flatten over uniform-length rows. -/
theorem flatten_length_uniform (n : ℕ) :
    ∀ xss : List (List α), (∀ xs ∈ xss, xs.length = n) →
      xss.flatten.length = n * xss.length
  | [], _ => by simp
  | a :: as, h => by
    rw [List.flatten_cons, List.length_append, h a (List.mem_cons_self a as),
      flatten_length_uniform n as fun xs hxs => h xs (List.mem_cons_of_mem _ hxs)]
    simp only [List.length_cons]
    ring

/-- Python slice bound normalization for a sequence of length `len`: a
negative bound wraps by `len` once and is clamped below at 0; a
non-negative bound is clamped above at `len`. -/
def sliceIdx (len : ℕ) (i : ℤ) : ℕ :=
  if i < 0 then (i + len).toNat else min i.toNat len

/-- Python slicing `xs[a:b]`: never raises, silently clamping to the
available range (out-of-range slices are empty). -/
def pySlice (xs : List α) (a b : ℤ) : List α :=
  (xs.drop (sliceIdx xs.length a)).take (sliceIdx xs.length b - sliceIdx xs.length a)

/-- The precomputed slice bounds of `BoxCatcher.__init__` (lines 210-216):
`off_h = box_size[0] // 2`, `off_v = box_size[1] // 2`, and for each pixel
the row range `[loc[0]-off_v, loc[0]+off_v+1)` and the column range
`[loc[1]-off_h, loc[1]+off_h+1)` (note the source pairs the row axis with
`off_v`, derived from `box_size[1]`). -/
def bcRanges (pixels : List (ℤ × ℤ)) (box : ℕ × ℕ) : List ((ℤ × ℤ) × (ℤ × ℤ)) :=
  pixels.map fun loc =>
    ((loc.1 - ((box.2 / 2 : ℕ) : ℤ), loc.1 + ((box.2 / 2 : ℕ) : ℤ) + 1),
     (loc.2 - ((box.1 / 2 : ℕ) : ℤ), loc.2 + ((box.1 / 2 : ℕ) : ℤ) + 1))

/-- One frame's box at one precomputed range: `frames[...,rx,ry,:]`
restricted to a single frame, with the `(box_h, box_w)` axes flattened
row-major into one axis by the `reshape(extra_dims + (-1, C))` of line
230.  The result is the list of channel vectors of the box's interior. -/
def boxGrab (fr : Frame) (rg : (ℤ × ℤ) × (ℤ × ℤ)) : List (List ℚ) :=
  ((pySlice fr rg.1.1 rg.1.2).map fun row => pySlice row rg.2.1 rg.2.2).flatten

/-- Model of the value appended by `BoxCatcher.__process__` (lines 228-233)
for a batch with one leading frame dimension (`extra_dims = (N,)`): for
each precomputed range, the per-frame flattened box contents — indexed
`[pixel][frame][box position][channel]`.  Slicing never raises, so this is
total: out-of-range boxes are silently truncated or empty. -/
def bcCapture (pixels : List (ℤ × ℤ)) (box : ℕ × ℕ) (b : List Frame) :
    List (List (List (List ℚ))) :=
  (bcRanges pixels box).map fun rg => b.map fun fr => boxGrab fr rg

/-- `BoxCatcher.__process__`: `self.values.append(vals)` (line 233). -/
def bcProcess (pixels : List (ℤ × ℤ)) (box : ℕ × ℕ)
    (values : List (List (List (List (List ℚ))))) (b : List Frame) :
    List (List (List (List (List ℚ)))) :=
  values ++ [bcCapture pixels box b]

/-- Feeding a stream of batches to a `BoxCatcher`. -/
def bcRun (pixels : List (ℤ × ℤ)) (box : ℕ × ℕ)
    (batches : List (List Frame)) : List (List (List (List (List ℚ)))) :=
  batches.foldl (bcProcess pixels box) []

/-- Mean along the leading axis of a rectangular list of channel vectors:
`np.mean` at `axis=-2` pointwise.  Stated for rectangular input (numpy
rejects ragged input when building the array, see `bcRect`). -/
def npMeanAxis (vs : List (List ℚ)) : List ℚ :=
  (List.range (vs.headD []).length).map fun i =>
    (vs.map fun v => v.getD i 0).sum / (vs.length : ℚ)

/-- Rectangularity of the retained log, required by
`self.agg(self.values, axis=-2)` on line 239: numpy must pack
`self.values` into one `(K, P, N, A, C)` array, which needs every level
uniform; the empty log raises, and an empty box axis (`A = 0`) makes every
mean NaN (a non-finite result, modelled as failure like the scalar NaN
convention above). -/
def bcRect (v : List (List (List (List (List ℚ))))) : Bool :=
  !v.isEmpty && lensEq v && lensEq v.flatten && lensEq v.flatten.flatten &&
    lensEq v.flatten.flatten.flatten &&
    v.flatten.flatten.all fun box => !box.isEmpty

/-- Model of `BoxCatcher.extract` (lines 235-241): aggregate with the
default `agg = np.mean` along the box-interior axis (`axis=-2` of the
`(K, P, N, A, C)` array), then `reshape((-1,) + agg_val.shape[-2:])`, which
merges the call axis `K` and the pixel axis `P` into one leading axis —
i.e. a flatten of the call-major nesting. -/
def bcExtract (v : List (List (List (List (List ℚ))))) :
    Option (List (List (List ℚ))) :=
  if bcRect v then
    some ((v.map fun vals => vals.map fun pf => pf.map npMeanAxis).flatten)
  else none

/-- A rectangular frame of height `H`, width `W` and `C` channels. -/
def frameRect (H W C : ℕ) (fr : Frame) : Prop :=
  fr.length = H ∧ ∀ row ∈ fr, row.length = W ∧ ∀ v ∈ row, v.length = C

instance (H W C : ℕ) (fr : Frame) : Decidable (frameRect H W C fr) :=
  decidable_of_iff
    (fr.length = H ∧ ∀ row ∈ fr, row.length = W ∧ ∀ v ∈ row, v.length = C) Iff.rfl

/-- A slice bound already inside `[0, len]` normalizes to itself. -/
theorem sliceIdx_of_le (len : ℕ) (i : ℤ) (h0 : 0 ≤ i) (hl : i ≤ (len : ℤ)) :
    sliceIdx len i = i.toNat := by
  rw [sliceIdx, if_neg (not_lt.mpr h0)]
  omega

/-- An in-range Python slice is the corresponding drop-take. -/
theorem pySlice_eq_of_bounds (xs : List α) (a b : ℤ) (h0 : 0 ≤ a)
    (hab : a ≤ b) (hb : b ≤ (xs.length : ℤ)) :
    pySlice xs a b = (xs.drop a.toNat).take (b.toNat - a.toNat) := by
  rw [pySlice, sliceIdx_of_le _ _ h0 (hab.trans hb), sliceIdx_of_le _ _ (h0.trans hab) hb]

/-- Length of an in-range Python slice. -/
theorem pySlice_length (xs : List α) (a b : ℤ) (h0 : 0 ≤ a)
    (hab : a ≤ b) (hb : b ≤ (xs.length : ℤ)) :
    (pySlice xs a b).length = (b - a).toNat := by
  rw [pySlice_eq_of_bounds xs a b h0 hab hb, List.length_take, List.length_drop]
  omega

/-- Members of a Python slice are members of the sliced list. -/
theorem mem_pySlice {xs : List α} {a b : ℤ} {x : α} (h : x ∈ pySlice xs a b) :
    x ∈ xs := by
  rw [pySlice] at h
  exact List.mem_of_mem_drop (List.mem_of_mem_take h)

/-- A box fully inside a rectangular frame grabs exactly
`(r1-r0) * (c1-c0)` channel vectors, each of the frame's channel count. -/
theorem boxGrab_spec (H W C : ℕ) (fr : Frame) (hfr : frameRect H W C fr)
    (r0 r1 c0 c1 : ℤ) (hr0 : 0 ≤ r0) (hr : r0 ≤ r1) (hr1 : r1 ≤ (H : ℤ))
    (hc0 : 0 ≤ c0) (hc : c0 ≤ c1) (hc1 : c1 ≤ (W : ℤ)) :
    (boxGrab fr ((r0, r1), (c0, c1))).length = (r1 - r0).toNat * (c1 - c0).toNat ∧
    ∀ v ∈ boxGrab fr ((r0, r1), (c0, c1)), v.length = C := by
  obtain ⟨hlen, hrow⟩ := hfr
  have hcols : ∀ rowS ∈ (pySlice fr r0 r1).map fun row => pySlice row c0 c1,
      rowS.length = (c1 - c0).toNat := by
    intro rowS hmem
    obtain ⟨row, hrowmem, rfl⟩ := List.mem_map.mp hmem
    have hW := (hrow row (mem_pySlice hrowmem)).1
    exact pySlice_length row c0 c1 hc0 hc (by rw [hW]; exact hc1)
  constructor
  · rw [boxGrab, flatten_length_uniform ((c1 - c0).toNat) _ hcols, List.length_map,
      pySlice_length fr r0 r1 hr0 hr (by rw [hlen]; exact hr1)]
    ring
  · intro v hv
    rw [boxGrab] at hv
    obtain ⟨colS, hcolS, hvcol⟩ := List.mem_flatten.mp hv
    obtain ⟨row, hrowmem, rfl⟩ := List.mem_map.mp hcolS
    exact (hrow row (mem_pySlice hrowmem)).2 v (mem_pySlice hvcol)

/-- Folding append-of-one-capture is a map. -/
theorem foldl_append_map (f : α → β) :
    ∀ (l : List α) (acc : List β),
      l.foldl (fun v b => v ++ [f b]) acc = acc ++ l.map f
  | [], acc => by simp
  | x :: xs, acc => by
    rw [List.foldl_cons, foldl_append_map f xs (acc ++ [f x])]
    simp

/-- Running a stream of batches through `BoxCatcher` retains one capture
per call, in call order. -/
theorem bcRun_eq_map (pixels : List (ℤ × ℤ)) (box : ℕ × ℕ)
    (batches : List (List Frame)) :
    bcRun pixels box batches = batches.map (bcCapture pixels box) := by
  rw [bcRun]
  exact (foldl_append_map (bcCapture pixels box) batches []).trans (by simp)

/-- With every configured box fully inside every (rectangular) frame and
uniform batch sizes, `BoxCatcher.extract` succeeds and returns the
call-major flatten of the per-call, per-pixel, per-frame box means: a
result with `K * P` rows (calls-major, pixels-minor) of `N` aggregated
channel vectors each — NOT the `(P, total_frames, C)` layout the
specification describes, unless `K = 1`. -/
theorem bcExtract_eq (pixels : List (ℤ × ℤ)) (box : ℕ × ℕ)
    (batches : List (List Frame)) (H W C N : ℕ)
    (hbat : batches ≠ [])
    (hN : ∀ b ∈ batches, b.length = N)
    (hfr : ∀ b ∈ batches, ∀ fr ∈ b, frameRect H W C fr)
    (hbox : ∀ loc ∈ pixels,
      ((box.2 / 2 : ℕ) : ℤ) ≤ loc.1 ∧ loc.1 + ((box.2 / 2 : ℕ) : ℤ) + 1 ≤ (H : ℤ) ∧
      ((box.1 / 2 : ℕ) : ℤ) ≤ loc.2 ∧ loc.2 + ((box.1 / 2 : ℕ) : ℤ) + 1 ≤ (W : ℤ)) :
    bcExtract (bcRun pixels box batches) =
      some ((batches.map fun b => (bcRanges pixels box).map fun rg =>
        b.map fun fr => npMeanAxis (boxGrab fr rg)).flatten) ∧
    ((batches.map fun b => (bcRanges pixels box).map fun rg =>
        b.map fun fr => npMeanAxis (boxGrab fr rg)).flatten).length =
      batches.length * pixels.length ∧
    ∀ row ∈ (batches.map fun b => (bcRanges pixels box).map fun rg =>
        b.map fun fr => npMeanAxis (boxGrab fr rg)).flatten, row.length = N := by
  set v : List (List (List (List (List ℚ)))) := batches.map (bcCapture pixels box)
    with hvdef
  have hA : ∀ bx ∈ v.flatten.flatten,
      bx.length = (2 * (box.2 / 2) + 1) * (2 * (box.1 / 2) + 1) ∧ 0 < bx.length := by
    intro bx hbx
    obtain ⟨x, hx, hbxx⟩ := List.mem_flatten.mp hbx
    obtain ⟨cap, hcap, hxcap⟩ := List.mem_flatten.mp hx
    rw [hvdef] at hcap
    obtain ⟨b, hb, rfl⟩ := List.mem_map.mp hcap
    rw [bcCapture] at hxcap
    obtain ⟨rg, hrg, rfl⟩ := List.mem_map.mp hxcap
    obtain ⟨fr, hfrb, rfl⟩ := List.mem_map.mp hbxx
    rw [bcRanges] at hrg
    obtain ⟨loc, hloc, rfl⟩ := List.mem_map.mp hrg
    obtain ⟨h1, h2, h3, h4⟩ := hbox loc hloc
    have hspec := boxGrab_spec H W C fr (hfr b hb fr hfrb)
      (loc.1 - ((box.2 / 2 : ℕ) : ℤ)) (loc.1 + ((box.2 / 2 : ℕ) : ℤ) + 1)
      (loc.2 - ((box.1 / 2 : ℕ) : ℤ)) (loc.2 + ((box.1 / 2 : ℕ) : ℤ) + 1)
      (by omega) (by omega) h2 (by omega) (by omega) h4
    rw [hspec.1]
    constructor
    · congr 1 <;> omega
    · have e1 : (loc.1 + ((box.2 / 2 : ℕ) : ℤ) + 1 - (loc.1 - ((box.2 / 2 : ℕ) : ℤ))).toNat =
        2 * (box.2 / 2) + 1 := by omega
      have e2 : (loc.2 + ((box.1 / 2 : ℕ) : ℤ) + 1 - (loc.2 - ((box.1 / 2 : ℕ) : ℤ))).toNat =
        2 * (box.1 / 2) + 1 := by omega
      rw [e1, e2]
      positivity
  have hC : ∀ w ∈ v.flatten.flatten.flatten, w.length = C := by
    intro w hw
    obtain ⟨bx, hbx, hwbx⟩ := List.mem_flatten.mp hw
    obtain ⟨x, hx, hbxx⟩ := List.mem_flatten.mp hbx
    obtain ⟨cap, hcap, hxcap⟩ := List.mem_flatten.mp hx
    rw [hvdef] at hcap
    obtain ⟨b, hb, rfl⟩ := List.mem_map.mp hcap
    rw [bcCapture] at hxcap
    obtain ⟨rg, hrg, rfl⟩ := List.mem_map.mp hxcap
    obtain ⟨fr, hfrb, rfl⟩ := List.mem_map.mp hbxx
    rw [bcRanges] at hrg
    obtain ⟨loc, hloc, rfl⟩ := List.mem_map.mp hrg
    obtain ⟨h1, h2, h3, h4⟩ := hbox loc hloc
    exact (boxGrab_spec H W C fr (hfr b hb fr hfrb) _ _ _ _
      (by omega) (by omega) h2 (by omega) (by omega) h4).2 w hwbx
  have hP : ∀ cap ∈ v, cap.length = pixels.length := by
    intro cap hcap
    rw [hvdef] at hcap
    obtain ⟨b, hb, rfl⟩ := List.mem_map.mp hcap
    rw [bcCapture, List.length_map, bcRanges, List.length_map]
  have hNlev : ∀ x ∈ v.flatten, x.length = N := by
    intro x hx
    obtain ⟨cap, hcap, hxcap⟩ := List.mem_flatten.mp hx
    rw [hvdef] at hcap
    obtain ⟨b, hb, rfl⟩ := List.mem_map.mp hcap
    rw [bcCapture] at hxcap
    obtain ⟨rg, hrg, rfl⟩ := List.mem_map.mp hxcap
    rw [List.length_map]
    exact hN b hb
  have hvne : v ≠ [] := by
    rw [hvdef]
    simpa using hbat
  have hrect : bcRect v = true := by
    rw [bcRect, lensEq_of_forall _ _ hP, lensEq_of_forall _ _ hNlev,
      lensEq_of_forall _ _ fun bx hbx => (hA bx hbx).1, lensEq_of_forall _ _ hC]
    have hbool : v.flatten.flatten.all (fun bx => !bx.isEmpty) = true := by
      rw [List.all_eq_true]
      intro bx hbx
      have := (hA bx hbx).2
      simp only [Bool.not_eq_true', List.isEmpty_iff]
      rcases bx with - | ⟨y, ys⟩
      · simp at this
      · rfl
    rw [hbool]
    simp [List.isEmpty_iff, hvne]
  have hagg : v.map (fun vals => vals.map fun pf => pf.map npMeanAxis) =
      batches.map fun b => (bcRanges pixels box).map fun rg =>
        b.map fun fr => npMeanAxis (boxGrab fr rg) := by
    rw [hvdef, List.map_map]
    apply List.map_congr_left
    intro b hb
    simp only [Function.comp_apply, bcCapture, List.map_map]
    apply List.map_congr_left
    intro rg hrg
    simp only [Function.comp_apply, List.map_map]
    rfl
  have hresult : bcExtract (bcRun pixels box batches) =
      some ((batches.map fun b => (bcRanges pixels box).map fun rg =>
        b.map fun fr => npMeanAxis (boxGrab fr rg)).flatten) := by
    rw [bcRun_eq_map, ← hvdef, bcExtract, if_pos hrect, hagg]
  refine ⟨hresult, ?_, ?_⟩
  · rw [flatten_length_uniform pixels.length _ ?_, List.length_map, Nat.mul_comm]
    intro x hx
    obtain ⟨b, hb, rfl⟩ := List.mem_map.mp hx
    rw [List.length_map, bcRanges, List.length_map]
  · intro row hrow
    obtain ⟨x, hx, hrowx⟩ := List.mem_flatten.mp hrow
    obtain ⟨b, hb, rfl⟩ := List.mem_map.mp hx
    obtain ⟨rg, hrg, rfl⟩ := List.mem_map.mp hrowx
    rw [List.length_map]
    exact hN b hb

/-- When every configured pixel is inside every frame (and has a channel
vector of length 3), `PixelCatcher.__process__` succeeds and captures
exactly the per-frame, per-pixel channel vectors. -/
theorem pcProcess_eq_capture (pixels : List (ℤ × ℤ)) (b : List Frame)
    (hin : ∀ fr ∈ b, ∀ loc ∈ pixels, (pixelAt fr loc).map List.length = some 3) :
    pcProcess pixels b = some (b.map (pixelCapture pixels)) := by
  apply mapOpt_eq_some
  intro fr hfr
  apply mapOpt_eq_some
  intro loc hloc
  have h := hin fr hfr loc hloc
  cases hp : pixelAt fr loc with
  | none => rw [hp] at h; simp at h
  | some v => rfl

/-- Running a stream of in-bounds batches appends one capture entry per
batch, in order. -/
theorem pcRun_eq (pixels : List (ℤ × ℤ)) :
    ∀ (batches : List (List Frame)) (vals : List (List (List (List ℚ)))),
      (∀ b ∈ batches, ∀ fr ∈ b, ∀ loc ∈ pixels,
        (pixelAt fr loc).map List.length = some 3) →
      pcRun pixels vals batches =
        some (vals ++ batches.map fun b => b.map (pixelCapture pixels))
  | [], vals, _ => by simp [pcRun]
  | b :: bs, vals, h => by
    rw [pcRun, pcProcess_eq_capture pixels b (h b (List.mem_cons_self b bs))]
    show pcRun pixels (vals ++ [b.map (pixelCapture pixels)]) bs = _
    rw [pcRun_eq pixels bs (vals ++ [b.map (pixelCapture pixels)])
      fun b' hb' => h b' (List.mem_cons_of_mem b hb')]
    simp

/-- Under the same in-bounds condition, `PixelCatcher.extract` returns the
per-frame pixel captures of the whole concatenated stream, in stream
order: the hard-coded channel count 3 makes the reshape exactly undo the
concatenation. -/
theorem pcExtract_eq_spec (pixels : List (ℤ × ℤ)) (batches : List (List Frame))
    (hp : pixels ≠ []) (hb : batches ≠ [])
    (hin : ∀ b ∈ batches, ∀ fr ∈ b, ∀ loc ∈ pixels,
      (pixelAt fr loc).map List.length = some 3) :
    pcExtract pixels.length (batches.map fun b => b.map (pixelCapture pixels)) =
      some (batches.flatten.map (pixelCapture pixels)) := by
  set values : List (List (List (List ℚ))) :=
    batches.map fun b => b.map (pixelCapture pixels) with hvalues
  have hv1 : values.flatten = batches.flatten.map (pixelCapture pixels) := by
    rw [hvalues, List.map_flatten]
  have hcap : ∀ x ∈ values.flatten, x.length = pixels.length := by
    intro x hx
    rw [hv1] at hx
    obtain ⟨fr, -, rfl⟩ := List.mem_map.mp hx
    exact List.length_map pixels _
  have hch : ∀ x ∈ values.flatten.flatten, x.length = 3 := by
    intro x hx
    obtain ⟨cap, hcapmem, hxcap⟩ := List.mem_flatten.mp hx
    rw [hv1] at hcapmem
    obtain ⟨fr, hfr, rfl⟩ := List.mem_map.mp hcapmem
    obtain ⟨loc, hloc, rfl⟩ := List.mem_map.mp hxcap
    obtain ⟨b, hbmem, hfrb⟩ := List.mem_flatten.mp hfr
    have h := hin b hbmem fr hfrb loc hloc
    cases hp' : pixelAt fr loc with
    | none => rw [hp'] at h; simp at h
    | some v =>
      rw [hp'] at h
      simpa using h
  have hvne : values ≠ [] := by
    rw [hvalues]
    simpa using hb
  have hPpos : pixels.length ≠ 0 := by simpa using hp
  have hlen2 : values.flatten.flatten.length = pixels.length * values.flatten.length :=
    flatten_length_uniform _ _ hcap
  have hlen3 : values.flatten.flatten.flatten.length = 3 * values.flatten.flatten.length :=
    flatten_length_uniform _ _ hch
  have hdvd : (3 * pixels.length) ∣ values.flatten.flatten.flatten.length := by
    rw [hlen3, hlen2]
    exact ⟨values.flatten.length, by ring⟩
  rw [pcExtract, if_neg hvne, if_pos (by
    rw [lensEq_of_forall _ _ hcap, lensEq_of_forall _ _ hch]
    rfl)]
  rw [if_pos ⟨hPpos, hdvd⟩]
  rw [chunk_flatten 3 (by norm_num) _ hch,
    chunk_flatten pixels.length (Nat.pos_of_ne_zero hPpos) _ hcap, hv1]

/-- Claim C4 (corrected): the claim says every processor validates batch
geometry and fails with a shape error, applying no partial update.  Only
`OnlineStats` has a shape test (raised before any mutation).
`PixelCatcher` has none: it merely raises `IndexError` — with no state
change, since the exception precedes the append — when a coordinate is
outside the frame.  `BoxCatcher` never validates nor fails: its
`__process__` is total and always appends a capture, silently truncating
out-of-range boxes to empty slices. -/
theorem geometry_validation_only_in_onlineStats :
    (∀ shape count dataShape, osShapeCheck shape dataShape = false →
      osProcessShape shape count dataShape = none) ∧
    (∀ (pixels : List (ℤ × ℤ)) (b : List Frame),
      (∃ fr ∈ b, ∃ loc ∈ pixels, pixelAt fr loc = none) →
      pcProcess pixels b = none) ∧
    (∀ (pixels : List (ℤ × ℤ)) (box : ℕ × ℕ) values (b : List Frame),
      (bcProcess pixels box values b).length = values.length + 1) := by
  refine ⟨?_, ?_, ?_⟩
  · intro shape count dataShape h
    rw [osProcessShape, h]
    rfl
  · intro pixels b ⟨fr, hfr, loc, hloc, hnone⟩
    exact mapOpt_eq_none _ b ⟨fr, hfr, mapOpt_eq_none _ pixels ⟨loc, hloc, hnone⟩⟩
  · intro pixels box values b
    simp [bcProcess]

/-- Witness for C4: `OnlineStats(shape=(2,))` rejects a `(3,)` batch;
`PixelCatcher` with pixel `(5,5)` raises on a 1×1 frame; `BoxCatcher` with
pixel `(2,2)` and box `(1,1)` silently appends an empty capture for the
same 1×1 frame. -/
theorem geometry_validation_only_in_onlineStats_witness :
    osProcessShape [2] 0 [3] = none ∧
    pcProcess [((5 : ℤ), (5 : ℤ))] [[[[1, 2, 3]]]] = none ∧
    (bcProcess [((2 : ℤ), (2 : ℤ))] (1, 1) [] [[[[1, 2, 3]]]]).length = 0 + 1 := by
  refine ⟨geometry_validation_only_in_onlineStats.1 [2] 0 [3] (by decide),
    geometry_validation_only_in_onlineStats.2.1 _ _ ?_,
    geometry_validation_only_in_onlineStats.2.2 _ _ [] _⟩
  exact ⟨[[[1, 2, 3]]], by decide, ((5 : ℤ), (5 : ℤ)), by decide, by decide⟩

/-- Counterexample to C4 as stated: `BoxCatcher` configured for pixel
`(2,2)` (box `(1,1)`) fed a 1×1 frame — whose trailing geometry disagrees
with the configured coordinates — does not fail: it appends a capture
(with a silently empty box) to its state, so the state changes and no
error is raised. -/
theorem boxCatcher_accepts_mismatched_geometry :
    bcProcess [((2 : ℤ), (2 : ℤ))] (1, 1) [] [[[[1, 2, 3]]]] = [[[[]]]] ∧
    ([[[[]]]] : List (List (List (List (List ℚ))))) ≠ [] := by
  constructor
  · rfl
  · decide

/-- Claim C5 (corrected: the reshape hard-codes 3 channels, so the claimed
shape `(sum n_i, num_pixels, C)` only holds for `C = 3`): after feeding
any non-empty sequence of non-empty batches whose configured pixels all
carry 3-channel values, the log holds one entry per batch and `extract`
returns one row per frame of the concatenated stream, in order, whose
entry at pixel index `p` is exactly the channel vector of that frame at
`pixels[p]`; `extract` is a pure function of the log, so it can be called
repeatedly without clearing it. -/
theorem pixelCatcher_extract_is_per_frame_capture (pixels : List (ℤ × ℤ))
    (batches : List (List Frame)) (hp : pixels ≠ []) (hb : batches ≠ [])
    (hin : ∀ b ∈ batches, ∀ fr ∈ b, ∀ loc ∈ pixels,
      (pixelAt fr loc).map List.length = some 3) :
    pcRun pixels [] batches = some (batches.map fun b => b.map (pixelCapture pixels)) ∧
    pcExtract pixels.length (batches.map fun b => b.map (pixelCapture pixels)) =
      some (batches.flatten.map (pixelCapture pixels)) ∧
    (batches.flatten.map (pixelCapture pixels)).length = (batches.map List.length).sum ∧
    ∀ fr ∈ batches.flatten, pixelCapture pixels fr =
      pixels.map fun loc => (pixelAt fr loc).getD [] := by
  refine ⟨?_, pcExtract_eq_spec pixels batches hp hb hin, ?_, fun fr _ => rfl⟩
  · rw [pcRun_eq pixels batches [] hin]
    simp
  · rw [List.length_map, List.length_flatten]

/-- Witness for C5: one batch of one 1×1 3-channel frame at pixel (0,0). -/
theorem pixelCatcher_extract_is_per_frame_capture_witness :
    pcRun [((0 : ℤ), (0 : ℤ))] [] [[[[[1, 2, 3]]]]] = some [[[[1, 2, 3]]]] ∧
    pcExtract 1 [[[[1, 2, 3]]]] = some [[[1, 2, 3]]] := by
  have h := pixelCatcher_extract_is_per_frame_capture [((0 : ℤ), (0 : ℤ))]
    [[[[[(1 : ℚ), 2, 3]]]]] (by decide) (by decide) (by decide)
  exact ⟨h.1.trans (by decide), h.2.1.trans (by decide)⟩

/-- A list is the range-indexed map of its own `getD`. -/
theorem range_map_getD (d : α) :
    ∀ w : List α, (List.range w.length).map (fun i => w.getD i d) = w
  | [] => rfl
  | x :: xs => by
    rw [List.length_cons, List.range_succ_eq_map, List.map_cons, List.map_map,
      List.getD_cons_zero]
    congr 1
    have hc : ((fun i => (x :: xs).getD i d) ∘ Nat.succ) = fun i => xs.getD i d := by
      funext i
      simp [List.getD_cons_succ]
    rw [hc, range_map_getD d xs]

/-- The mean along a singleton leading axis is the single row itself (the
aggregation over a degenerate 1×1 box returns the pixel's channel
vector). -/
theorem npMeanAxis_single (w : List ℚ) : npMeanAxis [w] = w := by
  rw [npMeanAxis]
  simp only [List.headD_cons, List.length_cons, List.length_nil, List.map_cons,
    List.map_nil, List.sum_cons, List.sum_nil, add_zero, Nat.zero_add, Nat.cast_one,
    div_one]
  exact range_map_getD 0 w

/-- Claim C6 (corrected: the reshape merges the call axis and the pixel
axis, so the result has `K * num_pixels` leading rows — call-major,
pixel-minor — of `N` aggregated vectors each; the claimed
`(num_pixels, total_frames, C)` layout only holds for a single retained
call, `K = 1`): with boxes fully inside rectangular frames and a uniform
frame count `N` per call (numpy raises on ragged logs), `extract` applies
the default mean aggregation across the box-interior axis of every
retained call. -/
theorem boxCatcher_extract_call_major (pixels : List (ℤ × ℤ)) (box : ℕ × ℕ)
    (batches : List (List Frame)) (H W C N : ℕ)
    (hbat : batches ≠ [])
    (hN : ∀ b ∈ batches, b.length = N)
    (hfr : ∀ b ∈ batches, ∀ fr ∈ b, frameRect H W C fr)
    (hbox : ∀ loc ∈ pixels,
      ((box.2 / 2 : ℕ) : ℤ) ≤ loc.1 ∧ loc.1 + ((box.2 / 2 : ℕ) : ℤ) + 1 ≤ (H : ℤ) ∧
      ((box.1 / 2 : ℕ) : ℤ) ≤ loc.2 ∧ loc.2 + ((box.1 / 2 : ℕ) : ℤ) + 1 ≤ (W : ℤ)) :
    bcExtract (bcRun pixels box batches) =
      some ((batches.map fun b => (bcRanges pixels box).map fun rg =>
        b.map fun fr => npMeanAxis (boxGrab fr rg)).flatten) ∧
    ((batches.map fun b => (bcRanges pixels box).map fun rg =>
        b.map fun fr => npMeanAxis (boxGrab fr rg)).flatten).length =
      batches.length * pixels.length ∧
    ∀ row ∈ (batches.map fun b => (bcRanges pixels box).map fun rg =>
        b.map fun fr => npMeanAxis (boxGrab fr rg)).flatten, row.length = N :=
  bcExtract_eq pixels box batches H W C N hbat hN hfr hbox

/-- Witness for C6: one retained call, one pixel `(0,0)` with box `(1,1)`
on a single 1×1 single-channel frame of value 5. -/
theorem boxCatcher_extract_call_major_witness :
    bcExtract (bcRun [((0 : ℤ), (0 : ℤ))] (1, 1) [[[[[5]]]]]) = some [[[5]]] := by
  have h := (boxCatcher_extract_call_major [((0 : ℤ), (0 : ℤ))] (1, 1)
    [[[[[(5 : ℚ)]]]]] 1 1 1 1 (by decide) (by decide) (by decide) (by decide)).1
  rw [h]
  norm_num [bcRanges, boxGrab, pySlice, sliceIdx, npMeanAxis, List.range_succ]

/-- Counterexample to C6 as stated: two single-frame calls at one pixel
`(0,0)`, box `(1,1)`, on 1×1 single-channel frames of values 7 and 9 —
`extract` returns two leading rows (`K * num_pixels = 2`), not
`num_pixels = 1` rows of the two frames. -/
theorem boxCatcher_extract_shape_counterexample :
    bcExtract (bcRun [((0 : ℤ), (0 : ℤ))] (1, 1) [[[[[7]]]], [[[[9]]]]]) =
      some [[[7]], [[9]]] ∧
    ([[[7]], [[9]]] : List (List (List ℚ))).length = 2 ∧
    (2 : ℕ) ≠ 1 := by
  refine ⟨?_, by decide, by decide⟩
  have h1 : bcRun [((0 : ℤ), (0 : ℤ))] (1, 1) [[[[[(7 : ℚ)]]]], [[[[9]]]]] =
      [[[[[(7 : ℚ)]]]], [[[[9]]]]] := rfl
  rw [h1, bcExtract, if_pos (by decide)]
  norm_num [npMeanAxis, List.range_succ]

/-- An in-bounds pixel lookup on a rectangular frame succeeds with a
channel vector of the frame's channel count. -/
theorem pixelAt_some (H W C : ℕ) (fr : Frame) (hfr : frameRect H W C fr)
    (loc : ℤ × ℤ) (h1 : 0 ≤ loc.1) (h2 : loc.1 < (H : ℤ))
    (h3 : 0 ≤ loc.2) (h4 : loc.2 < (W : ℤ)) :
    ∃ v, pixelAt fr loc = some v ∧ v.length = C := by
  obtain ⟨hlen, hrow⟩ := hfr
  have hr : loc.1.toNat < fr.length := by rw [hlen]; omega
  have hrmem : fr.get ⟨loc.1.toNat, hr⟩ ∈ fr := List.get_mem fr loc.1.toNat hr
  have hW := (hrow _ hrmem).1
  have hc : loc.2.toNat < (fr.get ⟨loc.1.toNat, hr⟩).length := by rw [hW]; omega
  refine ⟨(fr.get ⟨loc.1.toNat, hr⟩).get ⟨loc.2.toNat, hc⟩, ?_,
    (hrow _ hrmem).2 _ (List.get_mem _ loc.2.toNat hc)⟩
  rw [pixelAt, pyIdx, if_pos h1, List.get?_eq_get hr]
  show pyIdx (fr.get ⟨loc.1.toNat, hr⟩) loc.2 = _
  rw [pyIdx, if_pos h3, List.get?_eq_get hc]

/-- A degenerate `[r, r+1) × [c, c+1)` box on a rectangular frame grabs
exactly the single channel vector at `(r, c)`. -/
theorem boxGrab_single (H W C : ℕ) (fr : Frame) (hfr : frameRect H W C fr)
    (r c : ℤ) (h1 : 0 ≤ r) (h2 : r < (H : ℤ)) (h3 : 0 ≤ c) (h4 : c < (W : ℤ)) :
    boxGrab fr ((r, r + 1), (c, c + 1)) = [(pixelAt fr (r, c)).getD []] := by
  obtain ⟨hlen, hrow⟩ := hfr
  have hr : r.toNat < fr.length := by rw [hlen]; omega
  have hrmem : fr.get ⟨r.toNat, hr⟩ ∈ fr := List.get_mem fr r.toNat hr
  have hW := (hrow _ hrmem).1
  have hc : c.toNat < (fr.get ⟨r.toNat, hr⟩).length := by rw [hW]; omega
  have hs1 : pySlice fr r (r + 1) = [fr.get ⟨r.toNat, hr⟩] := by
    rw [pySlice_eq_of_bounds fr r (r + 1) h1 (by omega) (by rw [hlen]; omega)]
    have ht : (r + 1).toNat - r.toNat = 1 := by omega
    rw [ht, List.take_one_drop_eq_of_lt_length hr]
  have hs2 : pySlice (fr.get ⟨r.toNat, hr⟩) c (c + 1) =
      [(fr.get ⟨r.toNat, hr⟩).get ⟨c.toNat, hc⟩] := by
    rw [pySlice_eq_of_bounds _ c (c + 1) h3 (by omega) (by rw [hW]; omega)]
    have ht : (c + 1).toNat - c.toNat = 1 := by omega
    rw [ht, List.take_one_drop_eq_of_lt_length hc]
  have hpx : pixelAt fr (r, c) = some ((fr.get ⟨r.toNat, hr⟩).get ⟨c.toNat, hc⟩) := by
    rw [pixelAt, pyIdx, if_pos h1, List.get?_eq_get hr]
    show pyIdx (fr.get ⟨r.toNat, hr⟩) c = _
    rw [pyIdx, if_pos h3, List.get?_eq_get hc]
  simp only [boxGrab]
  rw [hs1, List.map_cons, List.map_nil, hs2, hpx]
  rfl

/-- `getD` through a `map` at an in-range index. -/
theorem getD_map_of_lt (g : α → β) (l : List α) (i : ℕ) (hi : i < l.length) (d : β) :
    (l.map g).getD i d = g (l.get ⟨i, hi⟩) := by
  rw [List.getD_eq_getElem?_getD, List.getElem?_map, List.getElem?_eq_getElem hi]
  rfl

/-- Claim C8 (corrected: the two extracts lay the same values out on
transposed axes — `BoxSampler` is pixel-major `(P, N, C)` for a single
call, `PixelSampler` frame-major `(N, P, C)` — so they are equal only up
to that transposition, not as arrays): for one batch of rectangular
3-channel frames with all pixels in bounds, a `BoxSampler` with box
`(1,1)` and mean aggregation captures exactly the `PixelSampler` values:
entry `[p][f]` of the former equals entry `[f][p]` of the latter. -/
theorem boxSampler_1x1_transposes_pixelSampler (pixels : List (ℤ × ℤ))
    (b : List Frame) (H W : ℕ) (hp : pixels ≠ [])
    (hfr : ∀ fr ∈ b, frameRect H W 3 fr)
    (hloc : ∀ loc ∈ pixels, 0 ≤ loc.1 ∧ loc.1 < (H : ℤ) ∧ 0 ≤ loc.2 ∧ loc.2 < (W : ℤ)) :
    bcExtract (bcRun pixels (1, 1) [b]) =
      some (pixels.map fun loc => b.map fun fr => (pixelAt fr loc).getD []) ∧
    pcRun pixels [] [b] = some [b.map (pixelCapture pixels)] ∧
    pcExtract pixels.length [b.map (pixelCapture pixels)] =
      some (b.map fun fr => pixels.map fun loc => (pixelAt fr loc).getD []) ∧
    ∀ p f, p < pixels.length → f < b.length →
      ((pixels.map fun loc => b.map fun fr => (pixelAt fr loc).getD []).getD p []).getD f [] =
      ((b.map fun fr => pixels.map fun loc => (pixelAt fr loc).getD []).getD f []).getD p [] := by
  have hin : ∀ b' ∈ [b], ∀ fr ∈ b', ∀ loc ∈ pixels,
      (pixelAt fr loc).map List.length = some 3 := by
    intro b' hb' fr hfrb loc hlocp
    rw [List.mem_singleton.mp hb'] at hfrb
    obtain ⟨h1, h2, h3, h4⟩ := hloc loc hlocp
    obtain ⟨v, hv, hv3⟩ := pixelAt_some H W 3 fr (hfr fr hfrb) loc h1 h2 h3 h4
    rw [hv, Option.map_some', hv3]
  have hbc := bcExtract_eq pixels (1, 1) [b] H W 3 b.length (by simp)
    (by intro b' hb'; rw [List.mem_singleton.mp hb'])
    (by intro b' hb' fr hfrb; rw [List.mem_singleton.mp hb'] at hfrb; exact hfr fr hfrb)
    (by
      intro loc hlocp
      obtain ⟨h1, h2, h3, h4⟩ := hloc loc hlocp
      refine ⟨by simp; omega, by simp; omega, by simp; omega, by simp; omega⟩)
  have hranges : bcRanges pixels (1, 1) =
      pixels.map fun loc => ((loc.1, loc.1 + 1), (loc.2, loc.2 + 1)) := by
    simp [bcRanges]
  have hbcval : bcExtract (bcRun pixels (1, 1) [b]) =
      some (pixels.map fun loc => b.map fun fr => (pixelAt fr loc).getD []) := by
    rw [hbc.1]
    congr 1
    rw [List.map_cons, List.map_nil, List.flatten_cons, List.flatten_nil,
      List.append_nil, hranges, List.map_map]
    apply List.map_congr_left
    intro loc hlocp
    obtain ⟨h1, h2, h3, h4⟩ := hloc loc hlocp
    simp only [Function.comp_apply]
    apply List.map_congr_left
    intro fr hfrb
    rw [boxGrab_single H W 3 fr (hfr fr hfrb) loc.1 loc.2 h1 h2 h3 h4,
      npMeanAxis_single]
  have hpcrun : pcRun pixels [] [b] = some [b.map (pixelCapture pixels)] := by
    rw [pcRun_eq pixels [b] [] hin]
    simp
  have hpcex := pcExtract_eq_spec pixels [b] hp (by simp) hin
  refine ⟨hbcval, hpcrun, ?_, ?_⟩
  · rw [List.map_cons, List.map_nil] at hpcex
    rw [hpcex]
    congr 1
    rw [List.flatten_cons, List.flatten_nil, List.append_nil]
    rfl
  · intro p f hpp hff
    rw [getD_map_of_lt _ pixels p hpp, getD_map_of_lt _ b f hff,
      getD_map_of_lt _ b f hff, getD_map_of_lt _ pixels p hpp]

/-- Witness for C8: one pixel `(0,0)`, one 1×1 3-channel frame. -/
theorem boxSampler_1x1_transposes_pixelSampler_witness :
    bcExtract (bcRun [((0 : ℤ), (0 : ℤ))] (1, 1) [[[[[1, 2, 3]]]]]) =
      some [[[1, 2, 3]]] ∧
    pcExtract 1 [[[[1, 2, 3]]]] = some [[[1, 2, 3]]] := by
  have h := boxSampler_1x1_transposes_pixelSampler [((0 : ℤ), (0 : ℤ))]
    [[[[(1 : ℚ), 2, 3]]]] 1 1 (by decide) (by decide) (by decide)
  exact ⟨h.1.trans (by decide), h.2.2.1.trans (by decide)⟩

/-- Counterexample to C8 as stated: one pixel `(0,0)`, two 1×1 3-channel
frames — `BoxSampler` extracts `[[v1, v2]]` (pixel-major) while
`PixelSampler` extracts `[[v1], [v2]]` (frame-major): the same values on
transposed axes, not the same array. -/
theorem boxSampler_vs_pixelSampler_layout_counterexample :
    bcExtract (bcRun [((0 : ℤ), (0 : ℤ))] (1, 1) [[[[[1, 2, 3]]], [[[4, 5, 6]]]]]) =
      some [[[1, 2, 3], [4, 5, 6]]] ∧
    pcExtract 1 [[[[1, 2, 3]], [[4, 5, 6]]]] = some [[[1, 2, 3]], [[4, 5, 6]]] ∧
    ([[[1, 2, 3], [4, 5, 6]]] : List (List (List ℚ))) ≠ [[[1, 2, 3]], [[4, 5, 6]]] := by
  refine ⟨?_, by decide, by decide⟩
  have h1 : bcRun [((0 : ℤ), (0 : ℤ))] (1, 1) [[[[[(1 : ℚ), 2, 3]]], [[[4, 5, 6]]]]] =
      [[[[[(1 : ℚ), 2, 3]], [[4, 5, 6]]]]] := rfl
  rw [h1, bcExtract, if_pos (by decide)]
  norm_num [npMeanAxis, List.range_succ]

/-- Counterexample to C5 as stated: with `C = 1` (frames of one channel),
three single-pixel frames produce an extract of first-axis length 1, not
`sum n_i = 3` — the hard-coded reshape to 3 channels regroups the three
1-channel values into one bogus 3-vector. -/
theorem pixelCatcher_extract_channel_counterexample :
    pcRun [((0 : ℤ), (0 : ℤ))] [] [[[[[1]]], [[[2]]], [[[3]]]]] =
      some [[[[1]], [[2]], [[3]]]] ∧
    pcExtract 1 [[[[1]], [[2]], [[3]]]] = some [[[1, 2, 3]]] ∧
    ([[[1, 2, 3]]] : List (List (List ℚ))).length = 1 ∧
    ([[[[1]], [[2]], [[3]]]] : List (List (List (List ℚ)))).flatten.length = 3 := by
  refine ⟨by decide, ?_, by decide, by decide⟩
  decide

end Processors
